import Mathlib

/-!
Verification of the file-extraction-and-write core of the `clause_code`
repository (`src/clause_code/utils/file_writer.py`), shallowly embedded in
Lean 4.  Strings are modelled as `List Char`; the filesystem as explicit
state.  The Python regular expression

    \*\*File:\s*`([^`]+)`\*\*\s*\n```(\w+)?\n(.*?)\n```

(compiled with `re.DOTALL` and scanned with `re.finditer`) is embedded as a
deterministic matcher `matchAt`: every quantifier in that pattern is either
followed by a character its class excludes (so greedy maximal-munch is the
unique possibility) or is the single lazy `(.*?)` whose unique match is the
span up to the nearest `"\n```"`; the justification for each component is
recorded next to it.
-/

namespace ClauseCode

/-- The backquote character (written via its code point so that the
development never needs a backquote token in code position). -/
def bq : Char := Char.ofNat 96

/-- Python `str.strip()` / `\s` whitespace, restricted to the ASCII
whitespace characters (space, tab, newline, carriage return, vertical tab,
form feed).  Python additionally strips some Unicode spaces; no input in
this development contains them. -/
def isPySpace (c : Char) : Bool :=
  c = ' ' || c = '\t' || c = '\n' || c = '\r' || c = Char.ofNat 11 || c = Char.ofNat 12

/-- Python regex `\w` (ASCII fragment): letters, digits, underscore. -/
def isWordChar (c : Char) : Bool :=
  c.isAlphanum || c = '_'

/-- Python `str.strip()`: drop all leading and all trailing whitespace. -/
def pyStrip (l : List Char) : List Char :=
  ((l.dropWhile isPySpace).reverse.dropWhile isPySpace).reverse

/-- Match a literal character sequence at the head of the input, returning
the remainder on success. -/
def matchLiteral : List Char → List Char → Option (List Char)
  | [], s => some s
  | _ :: _, [] => none
  | x :: xs, y :: ys => if x = y then matchLiteral xs ys else none

/-- literal `**File:` of the marker. -/
def fileMarker : List Char := ("**File:").toList

/-- literal `**` closing the marker. -/
def starStar : List Char := ['*', '*']

/-- a code fence: three backquotes. -/
def fenceL : List Char := [bq, bq, bq]

/-- the closing fence as matched by the pattern tail `\n```  `. -/
def closeFence : List Char := '\n' :: fenceL

/-- the sentinel language tag. -/
def textL : List Char := ("text").toList

/-- The lazy `(.*?)\n``` ` tail of the pattern (under `re.DOTALL`): the body
is the span up to the *nearest* occurrence of `"\n```"`; `none` when no
closing fence exists (then the whole match attempt fails). -/
def findClose : List Char → Option (List Char × List Char)
  | [] => none
  | c :: cs =>
    match matchLiteral closeFence (c :: cs) with
    | some r => some ([], r)
    | none =>
      match findClose cs with
      | some (b, r) => some (c :: b, r)
      | none => none

/-- `true` iff `"\n```"` occurs (as a contiguous sublist) in the input. -/
def hasClose : List Char → Bool
  | [] => false
  | c :: cs => (matchLiteral closeFence (c :: cs)).isSome || hasClose cs

/-- One attempt of the Python pattern at the head of `s`; on success returns
`((path-span, language-span, body-span), remainder-after-match)`.

Each quantifier of the pattern is deterministic here:
* `\s*` before the opening backquote: the backquote is not whitespace, so
  the maximal whitespace run followed by a literal backquote is the only
  way the engine can proceed;
* `([^…]+)` (path): the class excludes the backquote that must follow, so
  maximal munch is forced; the `+` demands a non-empty span;
* `\s*\n` followed by three backquotes: inside a maximal whitespace run `w`
  the three backquotes can only start right after the run (a backquote is
  not whitespace), hence the `\n` must be the last character of `w`; this
  is encoded as `w.getLast? = some nl`;
* `(\w+)?\n`: a maximal word-character run followed by `\n` is the only
  candidate (a shorter non-empty run leaves a word character where `\n` is
  required, and dropping the optional group leaves the same first word
  character in place);
* `(.*?)` lazy: the nearest `"\n```"`, via `findClose`. -/
def matchAt (s : List Char) : Option ((List Char × List Char × List Char) × List Char) :=
  match matchLiteral fileMarker s with
  | none => none
  | some s1 =>
    match matchLiteral [bq] (s1.dropWhile isPySpace) with
    | none => none
    | some s3 =>
      if (s3.takeWhile (fun c => c != bq)).isEmpty then none
      else
        match matchLiteral (bq :: starStar) (s3.dropWhile (fun c => c != bq)) with
        | none => none
        | some s5 =>
          if (s5.takeWhile isPySpace).getLast? = some '\n' then
            match matchLiteral fenceL (s5.dropWhile isPySpace) with
            | none => none
            | some s7 =>
              match matchLiteral ['\n'] (s7.dropWhile isWordChar) with
              | none => none
              | some s9 =>
                match findClose s9 with
                | none => none
                | some (b, rest) =>
                  some ((s3.takeWhile (fun c => c != bq), s7.takeWhile isWordChar, b), rest)
          else none

/-- `re.finditer` driver with explicit fuel (one unit per scan position):
try a match at the current position; on success continue after the match
(non-overlapping), on failure slide one character. -/
def scanAux : Nat → List Char → List (List Char × List Char × List Char)
  | 0, _ => []
  | _ + 1, [] => []
  | fuel + 1, c :: cs =>
    match matchAt (c :: cs) with
    | some (r, rest) => r :: scanAux fuel rest
    | none => scanAux fuel cs

/-- All pattern matches of the response, in document order. -/
def scan (s : List Char) : List (List Char × List Char × List Char) :=
  scanAux s.length s

/-- The extraction record: `(filepath, content, language)` of the Python
tuple, as a structure. -/
structure FileRec where
  path : List Char
  content : List Char
  language : List Char
  deriving DecidableEq, Repr

/-- Post-processing of one raw match, as in the Python loop body:
`filepath = m.group(1).strip()`, `language = m.group(2) or 'text'`,
`content = m.group(3).strip()`. -/
def toRec (raw : List Char × List Char × List Char) : FileRec :=
  { path := pyStrip raw.1
    content := pyStrip raw.2.2
    language := if raw.2.1.isEmpty then textL else raw.2.1 }

/-- The dedup loop of `extract_files`: `seen_files` accumulates stripped
paths; a match whose stripped path was already seen is dropped entirely. -/
def dedupLoop : List (List Char × List Char × List Char) → List (List Char) → List FileRec
  | [], _ => []
  | raw :: rest, seen =>
    if pyStrip raw.1 ∈ seen then dedupLoop rest seen
    else toRec raw :: dedupLoop rest (pyStrip raw.1 :: seen)

/-- `FileExtractor.extract_files`. -/
def extract_files (response : List Char) : List FileRec :=
  dedupLoop (scan response) []

/-!
The Writer.  Absolute paths are modelled as lists of segments from the
filesystem root; `pathlib`'s `resolve()` is modelled as lexical
normalization of `.` / `..` / empty segments (symlinks are not modelled,
and the base directory is assumed to be already resolved, as the
surrounding CLI guarantees).  The filesystem is explicit state; the
environment failures that Python surfaces as exceptions (permission
denied, OS errors, other exceptions such as an embedded null byte) are
modelled as fault tables consulted by the two effectful operations
(`mkdir(parents=True, exist_ok=True)` and `open(..., 'w')`), mirroring that
the whole loop body sits inside `try`/`except`.
-/

/-- An absolute, resolved path: segments from the root. -/
abbrev AbsPath := List (List Char)

/-- Split a path string on `/` (as `str.split('/')`: empty segments are
kept here and discarded by `normalize`, matching `pathlib`'s treatment of
`//` and of a leading `/`). -/
def splitSlash : List Char → List (List Char)
  | [] => [[]]
  | c :: cs =>
    if c = '/' then [] :: splitSlash cs
    else
      match splitSlash cs with
      | [] => [[c]]
      | seg :: rest => (c :: seg) :: rest

/-- One step of lexical path normalization: skip empty and `.` segments,
let `..` pop the last segment (a no-op at the root, as `resolve()` does). -/
def normStep (acc : AbsPath) (seg : List Char) : AbsPath :=
  if seg = [] ∨ seg = ['.'] then acc
  else if seg = ['.', '.'] then acc.dropLast
  else acc ++ [seg]

/-- Lexical normalization of a segment sequence. -/
def normalize (segs : List (List Char)) : AbsPath :=
  segs.foldl normStep []

/-- `(base_path / filepath).resolve()`: a filepath with a leading `/` is
absolute and discards the base (as `pathlib` joining does); otherwise the
segments are appended to the base and the result normalized. -/
def resolvePath (base : AbsPath) (fp : List Char) : AbsPath :=
  if fp.head? = some '/' then normalize (splitSlash fp)
  else normalize (base ++ splitSlash fp)

/-- The exceptions distinguished by the three `except` clauses of
`write_files` (`PermissionError`, `OSError`, any other `Exception`). -/
inductive PyErr
  | permission
  | osErr (msg : List Char)
  | otherErr (msg : List Char)
  deriving DecidableEq, Repr

/-- Filesystem state plus the environment's fault behaviour. -/
structure FS where
  files : List (AbsPath × List Char)
  dirs : List AbsPath
  mkdirFault : List (AbsPath × PyErr)
  writeFault : List (AbsPath × PyErr)
  deriving DecidableEq, Repr

/-- First-match association-list lookup (later writes shadow earlier). -/
def lookupA {β : Type} : List (AbsPath × β) → AbsPath → Option β
  | [], _ => none
  | (k, v) :: rest, q => if k = q then some v else lookupA rest q

/-- `full_path.exists()`: a file or a directory at that path. -/
def existsPath (fs : FS) (p : AbsPath) : Bool :=
  (lookupA fs.files p).isSome || decide (p ∈ fs.dirs)

/-- All non-empty ancestor prefixes of a directory path, the directories
that `mkdir(parents=True, exist_ok=True)` guarantees to exist. -/
def prefixesOf (p : AbsPath) : List AbsPath :=
  (List.range p.length).map (fun i => p.take (i + 1))

/-- Record a directory and all its ancestors as present. -/
def addDirs (fs : FS) (dir : AbsPath) : FS :=
  { fs with dirs := prefixesOf dir ++ fs.dirs }

/-- `full_path.parent.mkdir(parents=True, exist_ok=True)`, which may raise
(modelled by the fault table). -/
def mkdirParents (fs : FS) (dir : AbsPath) : FS × Option PyErr :=
  match lookupA fs.mkdirFault dir with
  | some e => (fs, some e)
  | none => (addDirs fs dir, none)

/-- Store a file, shadowing (truncating/replacing) previous content. -/
def setFile (fs : FS) (p : AbsPath) (c : List Char) : FS :=
  { fs with files := (p, c) :: fs.files }

/-- `open(full_path, 'w').write(content)`, which may raise. -/
def writeFile (fs : FS) (p : AbsPath) (c : List Char) : FS × Option PyErr :=
  match lookupA fs.writeFault p with
  | some e => (fs, some e)
  | none => (setFile fs p c, none)

/-- The success message kind printed after a write. -/
inductive Action
  | created
  | updated
  deriving DecidableEq, Repr

/-- The per-record console message of `write_files` (exactly one per
record processed). -/
inductive Outcome
  | skippedEmptyPath
  | rejectedEscape
  | skippedExists
  | skippedNoContent
  | wrote (a : Action)
  | failedPermission
  | failedOS (msg : List Char)
  | failedOther (msg : List Char)
  deriving DecidableEq, Repr

/-- Dispatch of a raised exception to the matching `except` clause. -/
def errOutcome : PyErr → Outcome
  | .permission => .failedPermission
  | .osErr m => .failedOS m
  | .otherErr m => .failedOther m

/-- Outcomes produced by an `except` clause. -/
def isFailure : Outcome → Bool
  | .failedPermission => true
  | .failedOS _ => true
  | .failedOther _ => true
  | _ => false

/-- One iteration of the `write_files` loop body (the whole `try` block,
with a raised exception routed to `errOutcome`), in the source's order:
empty-path check; resolve; `safe_mode` containment check; exists-and-not-
overwrite skip; parent `mkdir`; `content is None` check; write; classify
the message by re-testing `full_path.exists()` *after* the write.
Returns the filesystem, the entry appended to `created_files` (if any) and
the console message. -/
def recordStep (fs : FS) (base : AbsPath) (overwrite safe_mode : Bool)
    (filepath : List Char) (content : Option (List Char)) :
    FS × Option AbsPath × Outcome :=
  if pyStrip filepath = [] then (fs, none, .skippedEmptyPath)
  else
    let full := resolvePath base filepath
    if safe_mode && !(base.isPrefixOf full) then (fs, none, .rejectedEscape)
    else if existsPath fs full && !overwrite then (fs, none, .skippedExists)
    else
      match mkdirParents fs full.dropLast with
      | (fs1, some e) => (fs1, none, errOutcome e)
      | (fs1, none) =>
        match content with
        | none => (fs1, none, .skippedNoContent)
        | some c =>
          match writeFile fs1 full c with
          | (fs2, some e) => (fs2, none, errOutcome e)
          | (fs2, none) =>
            (fs2, some full,
              .wrote (if existsPath fs2 full then
                        (if overwrite then Action.updated else Action.created)
                      else Action.created))

/-- `FileExtractor.write_files`: process the records in order, never
letting one record's failure abort the rest; return the final filesystem,
the `created_files` list and the per-record console messages. -/
def write_files (base : AbsPath) (overwrite safe_mode : Bool) :
    FS → List (List Char × Option (List Char) × List Char) →
    FS × List AbsPath × List Outcome
  | fs, [] => (fs, [], [])
  | fs, (fp, content, _lang) :: rest =>
    match recordStep fs base overwrite safe_mode fp content with
    | (fs1, createdOpt, out) =>
      match write_files base overwrite safe_mode fs1 rest with
      | (fs2, created, outs) => (fs2, createdOpt.toList ++ created, out :: outs)

/-!  Basic lemmas about the matching primitives. -/

theorem matchLiteral_append (lit r : List Char) :
    matchLiteral lit (lit ++ r) = some r := by
  induction lit with
  | nil => rfl
  | cons x xs ih => simp [matchLiteral, ih]

theorem matchLiteral_length {lit s r : List Char}
    (h : matchLiteral lit s = some r) : r.length + lit.length = s.length := by
  induction lit generalizing s with
  | nil =>
    simp only [matchLiteral, Option.some.injEq] at h
    simp [h]
  | cons x xs ih =>
    match s with
    | [] => simp [matchLiteral] at h
    | y :: ys =>
      simp only [matchLiteral] at h
      split at h
      · have := ih h
        simp only [List.length_cons]
        omega
      · exact absurd h (by simp)

theorem takeWhile_all_append {p : Char → Bool} {a : List Char} {c : Char}
    (r : List Char) (ha : ∀ x ∈ a, p x = true) (hc : p c = false) :
    (a ++ c :: r).takeWhile p = a := by
  induction a with
  | nil => simp [List.takeWhile_cons, hc]
  | cons x xs ih =>
    have hx : p x = true := ha x (by simp)
    simp only [List.cons_append, List.takeWhile_cons, hx]
    simp [ih fun y hy => ha y (by simp [hy])]

theorem dropWhile_all_append {p : Char → Bool} {a : List Char} {c : Char}
    (r : List Char) (ha : ∀ x ∈ a, p x = true) (hc : p c = false) :
    (a ++ c :: r).dropWhile p = c :: r := by
  induction a with
  | nil => simp [List.dropWhile_cons, hc]
  | cons x xs ih =>
    have hx : p x = true := ha x (by simp)
    simp only [List.cons_append, List.dropWhile_cons, hx]
    simp [ih fun y hy => ha y (by simp [hy])]

/-- The closing fence cannot begin strictly inside `b ++ closeFence`: if it
is not a prefix of the non-empty `b` it is not a prefix of
`b ++ closeFence ++ r` either (the characters of `closeFence` that a
straddling occurrence would reuse mismatch its own characters). -/
theorem matchLiteral_closeFence_straddle {c : Char} {cs : List Char}
    (r : List Char) (h : matchLiteral closeFence (c :: cs) = none) :
    matchLiteral closeFence ((c :: cs) ++ closeFence ++ r) = none := by
  have hbn : ¬ (bq = '\n') := by decide
  match cs with
  | [] =>
    by_cases h1 : ('\n' : Char) = c
    · subst h1
      simp [closeFence, fenceL, matchLiteral, hbn]
    · simp [closeFence, fenceL, matchLiteral, h1]
  | [c2] =>
    by_cases h1 : ('\n' : Char) = c
    · subst h1
      by_cases h2 : bq = c2
      · subst h2
        simp [closeFence, fenceL, matchLiteral, hbn]
      · simp [closeFence, fenceL, matchLiteral, h2]
    · simp [closeFence, fenceL, matchLiteral, h1]
  | [c2, c3] =>
    by_cases h1 : ('\n' : Char) = c
    · subst h1
      by_cases h2 : bq = c2
      · subst h2
        by_cases h3 : bq = c3
        · subst h3
          simp [closeFence, fenceL, matchLiteral, hbn]
        · simp [closeFence, fenceL, matchLiteral, h3]
      · simp [closeFence, fenceL, matchLiteral, h2]
    · simp [closeFence, fenceL, matchLiteral, h1]
  | c2 :: c3 :: c4 :: ctail =>
    by_cases h1 : ('\n' : Char) = c
    · subst h1
      by_cases h2 : bq = c2
      · subst h2
        by_cases h3 : bq = c3
        · subst h3
          by_cases h4 : bq = c4
          · subst h4
            simp [closeFence, fenceL, matchLiteral] at h
          · simp [closeFence, fenceL, matchLiteral, h4]
        · simp [closeFence, fenceL, matchLiteral, h3]
      · simp [closeFence, fenceL, matchLiteral, h2]
    · simp [closeFence, fenceL, matchLiteral, h1]

/-- Lazy-capture characterization: when `b` contains no `"\n```"`, the
nearest closing fence of `b ++ closeFence ++ r` is the appended one. -/
theorem findClose_append {b : List Char} (r : List Char)
    (hb : hasClose b = false) :
    findClose (b ++ closeFence ++ r) = some (b, r) := by
  induction b with
  | nil =>
    show findClose (closeFence ++ r) = some ([], r)
    have : closeFence ++ r = '\n' :: (fenceL ++ r) := rfl
    rw [this]
    simp only [findClose]
    rw [show ('\n' :: (fenceL ++ r)) = closeFence ++ r from rfl,
      matchLiteral_append]
  | cons c cs ih =>
    have h1 : matchLiteral closeFence (c :: cs) = none := by
      cases hml : matchLiteral closeFence (c :: cs) with
      | none => rfl
      | some t => rw [hasClose, hml] at hb; simp at hb
    have h2 : hasClose cs = false := by
      rw [hasClose, h1] at hb
      simpa using hb
    have hstr := matchLiteral_closeFence_straddle r h1
    show findClose (c :: (cs ++ closeFence ++ r)) = some (c :: cs, r)
    simp only [findClose]
    rw [show (c :: (cs ++ closeFence ++ r)) = (c :: cs) ++ closeFence ++ r from by simp]
    rw [hstr, ih h2]

theorem findClose_length : ∀ {s b r : List Char},
    findClose s = some (b, r) → b.length + r.length + 4 = s.length := by
  intro s
  induction s with
  | nil => intro b r h; simp [findClose] at h
  | cons c cs ih =>
    intro b r h
    simp only [findClose] at h
    split at h
    · next t heq =>
      simp only [Option.some.injEq, Prod.mk.injEq] at h
      obtain ⟨hb, hr⟩ := h
      subst hb; subst hr
      have hlen := matchLiteral_length heq
      rw [show closeFence.length = 4 from rfl] at hlen
      simp only [List.length_nil]
      omega
    · split at h
      · next b' r' heq =>
        simp only [Option.some.injEq, Prod.mk.injEq] at h
        obtain ⟨hb, hr⟩ := h
        subst hb; subst hr
        have := ih heq
        simp only [List.length_cons]
        omega
      · exact absurd h (by simp)

/-!  Well-formed file blocks and the behaviour of `matchAt` on them. -/

/-- Side condition on a path span: non-empty and backquote-free (the
regex class of group 1 excludes the backquote). -/
def pathOk (p : List Char) : Bool :=
  !p.isEmpty && p.all (fun c => c != bq)

/-- Side condition on a language span: word characters only. -/
def langOk (l : List Char) : Bool :=
  l.all isWordChar

/-- Side condition on a body span: no embedded closing fence. -/
def bodyOk (b : List Char) : Bool :=
  !hasClose b

/-- The canonical marker-plus-fence file block
`**File: <bq>p<bq>**\n<fence>l\nb\n<fence>` (with `<bq>` a backquote and
`<fence>` three backquotes), grouped for the matching lemma. -/
def mkFileBlock (p l b : List Char) : List Char :=
  fileMarker ++ ' ' :: bq :: (p ++ bq :: (starStar ++ '\n' :: (fenceL ++ (l ++ '\n' :: (b ++ closeFence)))))

/-- Sanity: the block builder spells exactly the markdown convention. -/
theorem mkFileBlock_spelling :
    mkFileBlock (("app.py").toList) (("python").toList) (("x = 1").toList)
      = ("**File: `app.py`**\n```python\nx = 1\n```").toList := by decide

/-- On a well-formed block the single match attempt succeeds and captures
exactly the path, language and body spans, leaving the remainder. -/
theorem matchAt_block (p l b rest : List Char) (hp : pathOk p = true)
    (hl : langOk l = true) (hb : bodyOk b = true) :
    matchAt (mkFileBlock p l b ++ rest) = some ((p, l, b), rest) := by
  have hpe : p.isEmpty = false := by
    rcases p with _ | ⟨x, xs⟩
    · simp [pathOk] at hp
    · rfl
  have hpbq : ∀ x ∈ p, (x != bq) = true := by
    simp only [pathOk, Bool.and_eq_true, List.all_eq_true] at hp
    exact fun x hx => hp.2 x hx
  have hlw : ∀ x ∈ l, isWordChar x = true := by
    simp only [langOk, List.all_eq_true] at hl
    exact fun x hx => hl x hx
  have hbc : hasClose b = false := by
    simpa [bodyOk] using hb
  have d1 : ∀ (t : List Char), (' ' :: bq :: t).dropWhile isPySpace = bq :: t := by
    intro t
    rw [List.dropWhile_cons_of_pos (by decide), List.dropWhile_cons_of_neg (by decide)]
  have d2 : ∀ (t : List Char), matchLiteral [bq] (bq :: t) = some t := by
    intro t
    simp [matchLiteral]
  have d3 : ∀ (t : List Char), (p ++ bq :: t).takeWhile (fun c => c != bq) = p :=
    fun t => takeWhile_all_append t hpbq (by simp)
  have d4 : ∀ (t : List Char), (p ++ bq :: t).dropWhile (fun c => c != bq) = bq :: t :=
    fun t => dropWhile_all_append t hpbq (by simp)
  have d5 : ∀ (t : List Char), matchLiteral (bq :: starStar) (bq :: (starStar ++ t)) = some t := by
    intro t
    rw [show bq :: (starStar ++ t) = (bq :: starStar) ++ t from rfl, matchLiteral_append]
  have d6 : ∀ (t : List Char), ('\n' :: (fenceL ++ t)).takeWhile isPySpace = ['\n'] := by
    intro t
    rw [show fenceL ++ t = bq :: (bq :: bq :: t) from rfl]
    rw [List.takeWhile_cons_of_pos (by decide), List.takeWhile_cons_of_neg (by decide)]
  have d7 : ∀ (t : List Char), ('\n' :: (fenceL ++ t)).dropWhile isPySpace = fenceL ++ t := by
    intro t
    rw [List.dropWhile_cons_of_pos (by decide)]
    rw [show fenceL ++ t = bq :: (bq :: bq :: t) from rfl]
    rw [List.dropWhile_cons_of_neg (by decide)]
  have d9 : ∀ (t : List Char), (l ++ '\n' :: t).takeWhile isWordChar = l :=
    fun t => takeWhile_all_append t hlw (by decide)
  have d10 : ∀ (t : List Char), (l ++ '\n' :: t).dropWhile isWordChar = '\n' :: t :=
    fun t => dropWhile_all_append t hlw (by decide)
  have d11 : ∀ (t : List Char), matchLiteral ['\n'] ('\n' :: t) = some t := by
    intro t
    simp [matchLiteral]
  have d12 : findClose (b ++ (closeFence ++ rest)) = some (b, rest) := by
    rw [← List.append_assoc]
    exact findClose_append rest hbc
  simp only [mkFileBlock, List.append_assoc, List.cons_append, matchAt,
    matchLiteral_append, d1, d2, d3, d4, d5, d6, d7, d9, d10, d11, d12, hpe]
  simp

/-!  Lemmas about the scanning driver. -/

theorem matchAt_nil : matchAt [] = none := rfl

/-- A successful match consumes at least one character (in fact at least
the marker), so the scanner's fuel argument is adequate. -/
theorem matchAt_rest_length {s : List Char}
    {r : List Char × List Char × List Char} {rest : List Char}
    (h : matchAt s = some (r, rest)) : rest.length < s.length := by
  simp only [matchAt] at h
  split at h
  · exact absurd h (by simp)
  · next s1 heq1 =>
    split at h
    · exact absurd h (by simp)
    · next s3 heq3 =>
      split at h
      · exact absurd h (by simp)
      · split at h
        · exact absurd h (by simp)
        · next s5 heq5 =>
          split at h
          · split at h
            · exact absurd h (by simp)
            · next s7 heq7 =>
              split at h
              · exact absurd h (by simp)
              · next s9 heq9 =>
                split at h
                · exact absurd h (by simp)
                · next b' rest' heq10 =>
                  simp only [Option.some.injEq, Prod.mk.injEq] at h
                  obtain ⟨-, hrest⟩ := h
                  subst hrest
                  have L1 := matchLiteral_length heq1
                  rw [show fileMarker.length = 7 from rfl] at L1
                  have L2 : (s1.dropWhile isPySpace).length ≤ s1.length :=
                    (List.dropWhile_suffix _).length_le
                  have L3 := matchLiteral_length heq3
                  rw [show ([bq] : List Char).length = 1 from rfl] at L3
                  have L4 : (s3.dropWhile (fun c => c != bq)).length ≤ s3.length :=
                    (List.dropWhile_suffix _).length_le
                  have L5 := matchLiteral_length heq5
                  rw [show (bq :: starStar).length = 3 from rfl] at L5
                  have L6 : (s5.dropWhile isPySpace).length ≤ s5.length :=
                    (List.dropWhile_suffix _).length_le
                  have L7 := matchLiteral_length heq7
                  rw [show fenceL.length = 3 from rfl] at L7
                  have L8 : (s7.dropWhile isWordChar).length ≤ s7.length :=
                    (List.dropWhile_suffix _).length_le
                  have L9 := matchLiteral_length heq9
                  rw [show (['\n'] : List Char).length = 1 from rfl] at L9
                  have L10 := findClose_length heq10
                  omega
          · exact absurd h (by simp)

/-- The path span of a successful match is non-empty (the `+` of the
regex's group 1). -/
theorem matchAt_path_ne {s : List Char}
    {r : List Char × List Char × List Char} {rest : List Char}
    (h : matchAt s = some (r, rest)) : r.1 ≠ [] := by
  simp only [matchAt] at h
  split at h
  · exact absurd h (by simp)
  · next s1 heq1 =>
    split at h
    · exact absurd h (by simp)
    · next s3 heq3 =>
      split at h
      · exact absurd h (by simp)
      · next hne =>
        split at h
        · exact absurd h (by simp)
        · next s5 heq5 =>
          split at h
          · split at h
            · exact absurd h (by simp)
            · next s7 heq7 =>
              split at h
              · exact absurd h (by simp)
              · next s9 heq9 =>
                split at h
                · exact absurd h (by simp)
                · next b' rest' heq10 =>
                  simp only [Option.some.injEq, Prod.mk.injEq] at h
                  obtain ⟨hr, -⟩ := h
                  subst hr
                  simpa [List.isEmpty_iff] using hne
          · exact absurd h (by simp)

/-- A match attempt fails wherever the first character is not `*`. -/
theorem matchAt_head_ne {c : Char} (cs : List Char) (hc : c ≠ '*') :
    matchAt (c :: cs) = none := by
  have : matchLiteral fileMarker (c :: cs) = none := by
    rw [show fileMarker = '*' :: ("*File:").toList from rfl]
    simp only [matchLiteral]
    rw [if_neg fun h => hc h.symm]
  simp [matchAt, this]

theorem scanAux_congr : ∀ (n m : Nat) (s : List Char),
    s.length ≤ n → s.length ≤ m → scanAux n s = scanAux m s := by
  intro n
  induction n with
  | zero =>
    intro m s hn _
    have : s = [] := List.length_eq_zero.mp (Nat.le_zero.mp hn)
    subst this
    cases m <;> rfl
  | succ n ih =>
    intro m s hn hm
    match s, m with
    | [], m => cases m <;> rfl
    | c :: cs, 0 => simp at hm
    | c :: cs, m + 1 =>
      simp only [scanAux]
      cases hma : matchAt (c :: cs) with
      | none =>
        change scanAux n cs = scanAux m cs
        exact ih m cs (by simp at hn; omega) (by simp at hm; omega)
      | some pr =>
        obtain ⟨r, rest⟩ := pr
        have hlt := matchAt_rest_length hma
        simp only [List.length_cons] at hn hm hlt
        change r :: scanAux n rest = r :: scanAux m rest
        rw [ih m rest (by omega) (by omega)]

/-- Scan step on a successful match: emit the captures, continue after. -/
theorem scan_step_some {s rest : List Char} {r : List Char × List Char × List Char}
    (h : matchAt s = some (r, rest)) : scan s = r :: scan rest := by
  match s with
  | [] => rw [matchAt_nil] at h; exact absurd h (by simp)
  | c :: cs =>
    have hlt := matchAt_rest_length h
    simp only [List.length_cons] at hlt
    show scanAux (c :: cs).length (c :: cs) = r :: scan rest
    simp only [List.length_cons, scanAux, h]
    rw [scanAux_congr cs.length rest.length rest (by omega) (by omega)]
    rfl

/-- Scan step on a failed match: slide one character. -/
theorem scan_step_none {c : Char} {cs : List Char}
    (h : matchAt (c :: cs) = none) : scan (c :: cs) = scan cs := by
  show scanAux (c :: cs).length (c :: cs) = scan cs
  simp only [List.length_cons, scanAux, h]
  rfl

/-- Scanning a single well-formed block yields exactly its captures. -/
theorem scan_one (p l b : List Char) (hp : pathOk p = true)
    (hl : langOk l = true) (hb : bodyOk b = true) :
    scan (mkFileBlock p l b) = [(p, l, b)] := by
  have h := matchAt_block p l b [] hp hl hb
  rw [List.append_nil] at h
  rw [scan_step_some h]
  rfl

/-- The separator written between two blocks in the two-block lemmas. -/
def gapL : List Char := ['\n', '\n']

/-- Scanning two well-formed blocks separated by a blank line yields
exactly the two capture triples, in document order. -/
theorem scan_two (p1 l1 b1 p2 l2 b2 : List Char)
    (hp1 : pathOk p1 = true) (hl1 : langOk l1 = true) (hb1 : bodyOk b1 = true)
    (hp2 : pathOk p2 = true) (hl2 : langOk l2 = true) (hb2 : bodyOk b2 = true) :
    scan (mkFileBlock p1 l1 b1 ++ gapL ++ mkFileBlock p2 l2 b2)
      = [(p1, l1, b1), (p2, l2, b2)] := by
  have h1 := matchAt_block p1 l1 b1 (gapL ++ mkFileBlock p2 l2 b2) hp1 hl1 hb1
  rw [List.append_assoc]
  rw [scan_step_some h1]
  rw [show gapL ++ mkFileBlock p2 l2 b2 = '\n' :: ('\n' :: mkFileBlock p2 l2 b2) from rfl]
  rw [scan_step_none (matchAt_head_ne _ (by decide)),
    scan_step_none (matchAt_head_ne _ (by decide))]
  rw [scan_one p2 l2 b2 hp2 hl2 hb2]

/-!  Lemmas about deduplication and about `pyStrip`. -/

/-- The record built from the first raw match whose stripped path is `q`. -/
def firstWithPath : List (List Char × List Char × List Char) → List Char → Option FileRec
  | [], _ => none
  | raw :: rest, q => if pyStrip raw.1 = q then some (toRec raw) else firstWithPath rest q

theorem dedupLoop_mem : ∀ {raws : List (List Char × List Char × List Char)}
    {seen : List (List Char)} {r : FileRec},
    r ∈ dedupLoop raws seen → ∃ raw ∈ raws, r = toRec raw := by
  intro raws
  induction raws with
  | nil => intro seen r h; simp [dedupLoop] at h
  | cons raw rest ih =>
    intro seen r h
    simp only [dedupLoop] at h
    split at h
    · obtain ⟨raw', hmem, hr⟩ := ih h
      exact ⟨raw', by simp [hmem], hr⟩
    · rcases List.mem_cons.mp h with h | h
      · exact ⟨raw, by simp, h⟩
      · obtain ⟨raw', hmem, hr⟩ := ih h
        exact ⟨raw', by simp [hmem], hr⟩

theorem dedupLoop_path_not_seen : ∀ {raws : List (List Char × List Char × List Char)}
    {seen : List (List Char)} {r : FileRec},
    r ∈ dedupLoop raws seen → r.path ∉ seen := by
  intro raws
  induction raws with
  | nil => intro seen r h; simp [dedupLoop] at h
  | cons raw rest ih =>
    intro seen r h
    simp only [dedupLoop] at h
    split at h
    · exact ih h
    · next hnot =>
      rcases List.mem_cons.mp h with h | h
      · subst h
        simpa [toRec] using hnot
      · have hr := ih h
        intro hmem
        exact hr (List.mem_cons_of_mem _ hmem)

theorem dedupLoop_nodup : ∀ (raws : List (List Char × List Char × List Char))
    (seen : List (List Char)),
    ((dedupLoop raws seen).map FileRec.path).Nodup := by
  intro raws
  induction raws with
  | nil => intro seen; simp [dedupLoop]
  | cons raw rest ih =>
    intro seen
    simp only [dedupLoop]
    split
    · exact ih seen
    · simp only [List.map_cons, List.nodup_cons]
      refine ⟨?_, ih _⟩
      intro hmem
      obtain ⟨r, hr, hpath⟩ := List.mem_map.mp hmem
      have hns := dedupLoop_path_not_seen hr
      rw [show (toRec raw).path = pyStrip raw.1 from rfl] at hpath
      exact hns (hpath ▸ List.mem_cons_self _ _)

theorem dedupLoop_first : ∀ {raws : List (List Char × List Char × List Char)}
    {seen : List (List Char)} {r : FileRec},
    r ∈ dedupLoop raws seen → firstWithPath raws r.path = some r := by
  intro raws
  induction raws with
  | nil => intro seen r h; simp [dedupLoop] at h
  | cons raw rest ih =>
    intro seen r h
    simp only [dedupLoop] at h
    split at h
    · next hseen =>
      have hne : pyStrip raw.1 ≠ r.path := by
        intro he
        exact dedupLoop_path_not_seen h (he ▸ hseen)
      simp only [firstWithPath, if_neg hne]
      exact ih h
    · next hnot =>
      rcases List.mem_cons.mp h with h | h
      · subst h
        simp [firstWithPath, toRec]
      · have hne : pyStrip raw.1 ≠ r.path := by
          intro he
          exact dedupLoop_path_not_seen h (he ▸ List.mem_cons_self _ _)
        simp only [firstWithPath, if_neg hne]
        exact ih h

theorem dedupLoop_covers : ∀ (raws : List (List Char × List Char × List Char))
    (seen : List (List Char)), ∀ raw ∈ raws,
    pyStrip raw.1 ∈ seen ∨ ∃ r ∈ dedupLoop raws seen, r.path = pyStrip raw.1 := by
  intro raws
  induction raws with
  | nil => intro seen raw h; simp at h
  | cons raw0 rest ih =>
    intro seen raw h
    rcases List.mem_cons.mp h with he | hmem
    · subst he
      by_cases hs : pyStrip raw.1 ∈ seen
      · exact Or.inl hs
      · refine Or.inr ⟨toRec raw, ?_, rfl⟩
        simp only [dedupLoop, if_neg hs]
        exact List.mem_cons_self _ _
    · by_cases hs : pyStrip raw0.1 ∈ seen
      · rcases ih seen raw hmem with h1 | ⟨r, hr, hp⟩
        · exact Or.inl h1
        · refine Or.inr ⟨r, ?_, hp⟩
          simp only [dedupLoop, if_pos hs]
          exact hr
      · rcases ih (pyStrip raw0.1 :: seen) raw hmem with h1 | ⟨r, hr, hp⟩
        · rcases List.mem_cons.mp h1 with he | h2
          · refine Or.inr ⟨toRec raw0, ?_, by simp [toRec, he]⟩
            simp only [dedupLoop, if_neg hs]
            exact List.mem_cons_self _ _
          · exact Or.inl h2
        · refine Or.inr ⟨r, ?_, hp⟩
          simp only [dedupLoop, if_neg hs]
          exact List.mem_cons_of_mem _ hr

theorem scanAux_path_ne : ∀ (fuel : Nat) (s : List Char)
    (raw : List Char × List Char × List Char),
    raw ∈ scanAux fuel s → raw.1 ≠ [] := by
  intro fuel
  induction fuel with
  | zero => intro s raw h; simp [scanAux] at h
  | succ n ih =>
    intro s raw h
    match s with
    | [] => simp [scanAux] at h
    | c :: cs =>
      simp only [scanAux] at h
      cases hma : matchAt (c :: cs) with
      | none =>
        rw [hma] at h
        exact ih cs raw h
      | some pr =>
        obtain ⟨r, rest⟩ := pr
        rw [hma] at h
        rcases List.mem_cons.mp h with he | hmem
        · subst he
          exact matchAt_path_ne hma
        · exact ih rest raw hmem

theorem scan_path_ne {s : List Char} {raw : List Char × List Char × List Char}
    (h : raw ∈ scan s) : raw.1 ≠ [] :=
  scanAux_path_ne _ _ _ h

theorem head_dropWhile {p : Char → Bool} : ∀ {l : List Char} {c : Char},
    (l.dropWhile p).head? = some c → p c = false := by
  intro l
  induction l with
  | nil => intro c h; simp at h
  | cons x xs ih =>
    intro c h
    by_cases hx : p x
    · rw [List.dropWhile_cons_of_pos hx] at h
      exact ih h
    · rw [List.dropWhile_cons_of_neg hx] at h
      simp only [List.head?_cons, Option.some.injEq] at h
      subst h
      exact Bool.eq_false_iff.mpr hx

theorem pyStrip_last {l : List Char} {c : Char}
    (h : (pyStrip l).getLast? = some c) : isPySpace c = false := by
  unfold pyStrip at h
  rw [List.getLast?_reverse] at h
  exact head_dropWhile h

theorem pyStrip_head {l : List Char} {c : Char}
    (h : (pyStrip l).head? = some c) : isPySpace c = false := by
  unfold pyStrip at h
  rw [List.head?_reverse] at h
  have hyne : (l.dropWhile isPySpace).reverse.dropWhile isPySpace ≠ [] := by
    intro h0
    rw [h0] at h
    simp at h
  have hsuf : ((l.dropWhile isPySpace).reverse).dropWhile isPySpace
      <:+ (l.dropWhile isPySpace).reverse := List.dropWhile_suffix _
  obtain ⟨t, ht⟩ := hsuf
  have hlast : ((l.dropWhile isPySpace).reverse).getLast? = some c := by
    rw [← ht, List.getLast?_append, h]
    rfl
  rw [List.getLast?_reverse] at hlast
  exact head_dropWhile hlast

theorem pyStrip_sandwich (l : List Char) :
    ∃ pre post, l = pre ++ pyStrip l ++ post
      ∧ (∀ c ∈ pre, isPySpace c = true) ∧ (∀ c ∈ post, isPySpace c = true) := by
  refine ⟨l.takeWhile isPySpace,
    ((l.dropWhile isPySpace).reverse.takeWhile isPySpace).reverse, ?_, ?_, ?_⟩
  · have hdw : l.dropWhile isPySpace
        = pyStrip l ++ ((l.dropWhile isPySpace).reverse.takeWhile isPySpace).reverse := by
      have h2 : (l.dropWhile isPySpace).reverse
          = (l.dropWhile isPySpace).reverse.takeWhile isPySpace
            ++ (l.dropWhile isPySpace).reverse.dropWhile isPySpace :=
        (List.takeWhile_append_dropWhile ..).symm
      calc l.dropWhile isPySpace
          = ((l.dropWhile isPySpace).reverse).reverse := (List.reverse_reverse _).symm
        _ = ((l.dropWhile isPySpace).reverse.takeWhile isPySpace
              ++ (l.dropWhile isPySpace).reverse.dropWhile isPySpace).reverse := by
            rw [← h2]
        _ = pyStrip l
              ++ ((l.dropWhile isPySpace).reverse.takeWhile isPySpace).reverse := by
            rw [List.reverse_append]
            rfl
    conv_lhs => rw [← List.takeWhile_append_dropWhile isPySpace l, hdw]
    rw [List.append_assoc]
  · exact fun c hc => List.mem_takeWhile_imp hc
  · intro c hc
    rw [List.mem_reverse] at hc
    exact List.mem_takeWhile_imp hc

theorem pyStrip_eq_nil {l : List Char} (h : pyStrip l = []) :
    ∀ c ∈ l, isPySpace c = true := by
  obtain ⟨pre, post, heq, hpre, hpost⟩ := pyStrip_sandwich l
  rw [h] at heq
  intro c hc
  rw [heq] at hc
  simp only [List.append_nil, List.mem_append] at hc
  rcases hc with hc | hc
  exacts [hpre c hc, hpost c hc]

/-!  Extraction on well-formed blocks. -/

theorem extract_files_one (p l b : List Char) (hp : pathOk p = true)
    (hl : langOk l = true) (hb : bodyOk b = true) :
    extract_files (mkFileBlock p l b) = [toRec (p, l, b)] := by
  unfold extract_files
  rw [scan_one p l b hp hl hb]
  simp [dedupLoop]

theorem extract_files_two_same (p1 l1 b1 p2 l2 b2 : List Char)
    (hp1 : pathOk p1 = true) (hl1 : langOk l1 = true) (hb1 : bodyOk b1 = true)
    (hp2 : pathOk p2 = true) (hl2 : langOk l2 = true) (hb2 : bodyOk b2 = true)
    (heq : pyStrip p1 = pyStrip p2) :
    extract_files (mkFileBlock p1 l1 b1 ++ gapL ++ mkFileBlock p2 l2 b2)
      = [toRec (p1, l1, b1)] := by
  unfold extract_files
  rw [scan_two p1 l1 b1 p2 l2 b2 hp1 hl1 hb1 hp2 hl2 hb2]
  simp only [dedupLoop]
  rw [if_neg (by simp : ¬ pyStrip (p1, l1, b1).1 ∈ ([] : List (List Char)))]
  rw [if_pos (by simp [heq.symm] : pyStrip (p2, l2, b2).1 ∈ [pyStrip (p1, l1, b1).1])]

theorem extract_files_two_diff (p1 l1 b1 p2 l2 b2 : List Char)
    (hp1 : pathOk p1 = true) (hl1 : langOk l1 = true) (hb1 : bodyOk b1 = true)
    (hp2 : pathOk p2 = true) (hl2 : langOk l2 = true) (hb2 : bodyOk b2 = true)
    (hne : pyStrip p1 ≠ pyStrip p2) :
    extract_files (mkFileBlock p1 l1 b1 ++ gapL ++ mkFileBlock p2 l2 b2)
      = [toRec (p1, l1, b1), toRec (p2, l2, b2)] := by
  unfold extract_files
  rw [scan_two p1 l1 b1 p2 l2 b2 hp1 hl1 hb1 hp2 hl2 hb2]
  simp only [dedupLoop]
  rw [if_neg (by simp : ¬ pyStrip (p1, l1, b1).1 ∈ ([] : List (List Char)))]
  rw [if_neg (by simp only [List.mem_singleton]; exact fun h => hne h.symm :
    ¬ pyStrip (p2, l2, b2).1 ∈ [pyStrip (p1, l1, b1).1])]

/-!  Lemmas about the Writer loop. -/

theorem write_files_nil (base : AbsPath) (ow sm : Bool) (fs : FS) :
    write_files base ow sm fs [] = (fs, [], []) := rfl

/-- One unfolding of the Writer loop: process the head record, then the
rest on the updated filesystem; the head contributes its optional created
path and exactly one console message. -/
theorem write_files_cons (base : AbsPath) (ow sm : Bool) (fs : FS)
    (fp : List Char) (c : Option (List Char)) (lang : List Char)
    (rest : List (List Char × Option (List Char) × List Char)) :
    write_files base ow sm fs ((fp, c, lang) :: rest)
      = ((write_files base ow sm (recordStep fs base ow sm fp c).1 rest).1,
         (recordStep fs base ow sm fp c).2.1.toList
           ++ (write_files base ow sm (recordStep fs base ow sm fp c).1 rest).2.1,
         (recordStep fs base ow sm fp c).2.2
           :: (write_files base ow sm (recordStep fs base ow sm fp c).1 rest).2.2) := rfl

/-- A record whose processing raised (any of the three `except` clauses)
appends nothing to `created_files`. -/
theorem recordStep_fail_none {fs : FS} {base : AbsPath} {ow sm : Bool}
    {fp : List Char} {c : Option (List Char)} {fs' : FS} {opt : Option AbsPath}
    {out : Outcome}
    (heq : recordStep fs base ow sm fp c = (fs', opt, out))
    (hf : isFailure out = true) : opt = none := by
  simp only [recordStep] at heq
  repeat' split at heq
  all_goals simp only [Prod.mk.injEq] at heq
  all_goals obtain ⟨-, hopt, hout⟩ := heq
  all_goals first
    | exact hopt.symm
    | (subst hout; simp [isFailure] at hf)

/-- A just-written file exists. -/
theorem existsPath_setFile (fs : FS) (p : AbsPath) (c : List Char) :
    existsPath (setFile fs p c) p = true := by
  simp [existsPath, setFile, lookupA]

/-- Under `safe_mode`, a record whose resolved path leaves the base is
rejected before any filesystem effect. -/
theorem recordStep_reject (fs : FS) (base : AbsPath) (ow : Bool)
    (fp : List Char) (c : Option (List Char)) (hne : pyStrip fp ≠ [])
    (hesc : base.isPrefixOf (resolvePath base fp) = false) :
    recordStep fs base ow true fp c = (fs, none, .rejectedEscape) := by
  simp only [recordStep]
  rw [if_neg hne]
  simp [hesc]

/-- A record with no content is skipped, but only after the parent
directories have been created. -/
theorem recordStep_skipNoContent (fs : FS) (base : AbsPath) (fp : List Char)
    (hne : pyStrip fp ≠ [])
    (hmk : lookupA fs.mkdirFault (resolvePath base fp).dropLast = none) :
    recordStep fs base true false fp none
      = (addDirs fs (resolvePath base fp).dropLast, none, .skippedNoContent) := by
  simp only [recordStep]
  rw [if_neg hne]
  simp only [Bool.false_and, Bool.not_true, Bool.and_false, Bool.false_eq_true,
    if_false, mkdirParents, hmk]

/-- A fault-free record that passes every check is written; note the
resulting message: the code re-tests existence *after* the write, so the
label depends only on the `overwrite` flag, never on prior existence. -/
theorem recordStep_success (fs : FS) (base : AbsPath) (ow : Bool)
    (fp body : List Char) (hne : pyStrip fp ≠ [])
    (hex : (existsPath fs (resolvePath base fp) && !ow) = false)
    (hmk : lookupA fs.mkdirFault (resolvePath base fp).dropLast = none)
    (hwr : lookupA fs.writeFault (resolvePath base fp) = none) :
    recordStep fs base ow false fp (some body)
      = (setFile (addDirs fs (resolvePath base fp).dropLast) (resolvePath base fp) body,
         some (resolvePath base fp),
         .wrote (if ow then Action.updated else Action.created)) := by
  simp only [recordStep]
  rw [if_neg hne]
  simp only [Bool.false_and, Bool.false_eq_true, if_false]
  rw [if_neg (by simp [hex])]
  simp only [mkdirParents, hmk]
  simp only [writeFile,
    show (addDirs fs (resolvePath base fp).dropLast).writeFault = fs.writeFault from rfl,
    hwr]
  simp only [existsPath_setFile, if_true]

/-- Demonstration base directory `/tmp/proj`. -/
def demoBase : AbsPath := [("tmp").toList, ("proj").toList]

/-- An empty filesystem with a fault-free environment. -/
def fsEmpty : FS := { files := [], dirs := [], mkdirFault := [], writeFault := [] }

/-- A filesystem whose environment denies writing `b.txt` under the
demonstration base (permission error). -/
def fsPermDemo : FS :=
  { files := [], dirs := [], mkdirFault := [],
    writeFault := [(resolvePath demoBase (("b.txt").toList), PyErr.permission)] }

/-!  The claims. -/

/-- Modelled from the spec: the content trimming the spec prescribes in
section 4.1 — "trimmed of one leading and one trailing blank/newline but
otherwise verbatim".  Drops at most one leading and one trailing newline
and changes nothing else (the comparator for the refutation of C1). -/
def specContentTrim (b : List Char) : List Char :=
  let b1 := match b with
    | '\n' :: t => t
    | _ => b
  match b1.getLast? with
  | some '\n' => b1.dropLast
  | _ => b1

/-- C1 (counterexample): the claim says a body whose first line begins
with spaces keeps those spaces.  On the block `**File: <bq>a.py<bq>**`
fenced over the body `"  x = 1"`, the code's `.strip()` removes the two
leading spaces, so the record's content differs from the spec's
trimmed-of-one-newline body. -/
theorem c1_counterexample :
    (extract_files (mkFileBlock (("a.py").toList) [] (("  x = 1").toList))).map
        FileRec.content
      ≠ [specContentTrim (("  x = 1").toList)] := by decide

/-- C1 (amended): every well-formed block extracts to a record whose
content is the fenced body with ALL leading and trailing whitespace
stripped (`str.strip()`), the interior kept verbatim: the body is exactly
some whitespace, then the stored content, then some whitespace. -/
theorem c1_amended_content_fully_stripped (p l b : List Char)
    (hp : pathOk p = true) (hl : langOk l = true) (hb : bodyOk b = true) :
    extract_files (mkFileBlock p l b) = [toRec (p, l, b)]
    ∧ ∃ pre post, b = pre ++ (toRec (p, l, b)).content ++ post
        ∧ (∀ c ∈ pre, isPySpace c = true) ∧ (∀ c ∈ post, isPySpace c = true) :=
  ⟨extract_files_one p l b hp hl hb, pyStrip_sandwich b⟩

/-- C1 (witness): on the indented body `"  x = 1"` the record's content is
`"x = 1"` — the leading indentation of the first body line is removed. -/
theorem c1_amended_witness :
    extract_files (mkFileBlock (("a.py").toList) [] (("  x = 1").toList))
      = [toRec ((("a.py").toList), ([] : List Char), (("  x = 1").toList))]
    ∧ (toRec ((("a.py").toList), ([] : List Char), (("  x = 1").toList))).content
      = ("x = 1").toList :=
  ⟨(c1_amended_content_fully_stripped (("a.py").toList) [] (("  x = 1").toList)
      (by decide) (by decide) (by decide)).1, by decide⟩

/-- C2 (code bug, evaluated at the failing input): writing the brand-new
file `new.txt` (it does not exist beforehand) with `overwrite` enabled is
reported as `Updated`, not `Created` — the code tests `exists()` only
after the write, so with `overwrite=True` the `Created` branch is dead. -/
theorem c2_new_file_reported_updated :
    existsPath fsEmpty (resolvePath demoBase (("new.txt").toList)) = false
    ∧ (write_files demoBase true false fsEmpty
        [(("new.txt").toList, some (("hi").toList), ("text").toList)]).2.2
      = [Outcome.wrote Action.updated] := by decide

/-- C3: with `safe_mode` on, a record resolving outside the base is
rejected with `RejectedPathEscape`: the filesystem is returned unchanged
(no file, no directory) and the created list is empty; with `safe_mode`
off (the default) the same record is written outside the base — its
resolved path is returned in the created list. -/
theorem c3_safe_mode_containment (fs : FS) (base : AbsPath) (ow : Bool)
    (fp body lang : List Char) (hne : pyStrip fp ≠ [])
    (hesc : base.isPrefixOf (resolvePath base fp) = false) :
    write_files base ow true fs [(fp, some body, lang)]
      = (fs, [], [Outcome.rejectedEscape])
    ∧ (lookupA fs.mkdirFault (resolvePath base fp).dropLast = none →
       lookupA fs.writeFault (resolvePath base fp) = none →
       (existsPath fs (resolvePath base fp) && !ow) = false →
       (write_files base ow false fs [(fp, some body, lang)]).2.1
         = [resolvePath base fp]) := by
  constructor
  · rw [write_files_cons, recordStep_reject fs base ow fp (some body) hne hesc]
    rfl
  · intro hmk hwr hex
    rw [write_files_cons, recordStep_success fs base ow fp body hne hex hmk hwr]
    rfl

/-- C3 (witness): base `/project`, record path `../../etc/evil` (resolving
to `/etc/evil`): rejected under `safe_mode`, written outside without it. -/
theorem c3_witness :
    pyStrip (("../../etc/evil").toList) ≠ []
    ∧ ([("project").toList] : AbsPath).isPrefixOf
        (resolvePath [("project").toList] (("../../etc/evil").toList)) = false
    ∧ write_files [("project").toList] true true fsEmpty
        [(("../../etc/evil").toList, some (("x").toList), ("text").toList)]
      = (fsEmpty, [], [Outcome.rejectedEscape])
    ∧ (write_files [("project").toList] true false fsEmpty
        [(("../../etc/evil").toList, some (("x").toList), ("text").toList)]).2.1
      = [resolvePath [("project").toList] (("../../etc/evil").toList)] := by
  refine ⟨by decide, by decide, ?_, ?_⟩
  · exact (c3_safe_mode_containment fsEmpty [("project").toList] true
      (("../../etc/evil").toList) (("x").toList) (("text").toList)
      (by decide) (by decide)).1
  · exact (c3_safe_mode_containment fsEmpty [("project").toList] true
      (("../../etc/evil").toList) (("x").toList) (("text").toList)
      (by decide) (by decide)).2 (by decide) (by decide) (by decide)

/-- C4 (counterexample): the claim says a null-content record leaves the
filesystem entirely unchanged; in fact the parent directory `a` of
`a/b.txt` IS created before the content check skips the record. -/
theorem c4_counterexample :
    (write_files demoBase true false fsEmpty
        [(("a/b.txt").toList, none, ("text").toList)]).2.2
      = [Outcome.skippedNoContent]
    ∧ (write_files demoBase true false fsEmpty
        [(("a/b.txt").toList, none, ("text").toList)]).2.1 = []
    ∧ (demoBase ++ [("a").toList])
        ∈ (write_files demoBase true false fsEmpty
            [(("a/b.txt").toList, none, ("text").toList)]).1.dirs := by decide

/-- C4 (amended): for a record with absent content the Writer emits
`SkippedNoContent`, writes no file and adds nothing to the created list,
but directory creation runs BEFORE content validation, so all missing
ancestor directories of the resolved path are created. -/
theorem c4_amended_dirs_created_before_content_check (fs : FS) (base : AbsPath)
    (fp lang : List Char) (hne : pyStrip fp ≠ [])
    (hmk : lookupA fs.mkdirFault (resolvePath base fp).dropLast = none) :
    write_files base true false fs [(fp, none, lang)]
      = (addDirs fs (resolvePath base fp).dropLast, [], [Outcome.skippedNoContent])
    ∧ (addDirs fs (resolvePath base fp).dropLast).files = fs.files := by
  refine ⟨?_, rfl⟩
  rw [write_files_cons, recordStep_skipNoContent fs base fp hne hmk]
  rfl

/-- C4 (witness): the concrete `a/b.txt` instance of the amended claim. -/
theorem c4_witness :
    write_files demoBase true false fsEmpty
        [(("a/b.txt").toList, none, ("text").toList)]
      = (addDirs fsEmpty (resolvePath demoBase (("a/b.txt").toList)).dropLast,
         [], [Outcome.skippedNoContent]) :=
  (c4_amended_dirs_created_before_content_check fsEmpty demoBase
    (("a/b.txt").toList) (("text").toList) (by decide) (by decide)).1

/-- C5: paths in the extractor's output are unique; every output record is
the FIRST match (in document order) with its stripped path; every matched
block is represented by a record with its stripped path; and two blocks
with the same marker path yield exactly the one record of the first block. -/
theorem c5_duplicate_path_first_wins :
    (∀ response : List Char, ((extract_files response).map FileRec.path).Nodup)
    ∧ (∀ response : List Char, ∀ r ∈ extract_files response,
        firstWithPath (scan response) r.path = some r)
    ∧ (∀ response : List Char, ∀ raw ∈ scan response,
        ∃ r ∈ extract_files response, r.path = pyStrip raw.1)
    ∧ (∀ p l1 b1 l2 b2 : List Char,
        pathOk p = true → langOk l1 = true → langOk l2 = true →
        bodyOk b1 = true → bodyOk b2 = true →
        extract_files (mkFileBlock p l1 b1 ++ gapL ++ mkFileBlock p l2 b2)
          = [toRec (p, l1, b1)]) := by
  refine ⟨fun response => dedupLoop_nodup _ _,
    fun response r h => dedupLoop_first h,
    fun response raw h => ?_,
    fun p l1 b1 l2 b2 hp hl1 hl2 hb1 hb2 =>
      extract_files_two_same p l1 b1 p l2 b2 hp hl1 hb1 hp hl2 hb2 rfl⟩
  rcases dedupLoop_covers (scan response) [] raw h with h1 | h2
  · simp at h1
  · exact h2

/-- C5 (witness): the repository's own duplicate-path test case: two
`t.py` blocks, only the first body survives. -/
theorem c5_witness :
    extract_files (mkFileBlock (("t.py").toList) (("python").toList)
        (("# First").toList)
      ++ gapL ++ mkFileBlock (("t.py").toList) (("python").toList)
        (("# Second").toList))
      = [toRec ((("t.py").toList), (("python").toList), (("# First").toList))] :=
  c5_duplicate_path_first_wins.2.2.2 (("t.py").toList) (("python").toList)
    (("# First").toList) (("python").toList) (("# Second").toList)
    (by decide) (by decide) (by decide) (by decide) (by decide)

/-- C6: two back-to-back well-formed blocks with distinct stripped paths
yield exactly two records, each holding only its own body (the lazy body
capture stops at the nearest closing fence). -/
theorem c6_nongreedy_two_blocks (p1 l1 b1 p2 l2 b2 : List Char)
    (hp1 : pathOk p1 = true) (hl1 : langOk l1 = true) (hb1 : bodyOk b1 = true)
    (hp2 : pathOk p2 = true) (hl2 : langOk l2 = true) (hb2 : bodyOk b2 = true)
    (hne : pyStrip p1 ≠ pyStrip p2) :
    extract_files (mkFileBlock p1 l1 b1 ++ gapL ++ mkFileBlock p2 l2 b2)
      = [toRec (p1, l1, b1), toRec (p2, l2, b2)] :=
  extract_files_two_diff p1 l1 b1 p2 l2 b2 hp1 hl1 hb1 hp2 hl2 hb2 hne

/-- C6 (witness): blocks `a.py`/`A` and `b.py`/`B` give two records whose
contents are exactly `A` and `B`. -/
theorem c6_witness :
    extract_files (mkFileBlock (("a.py").toList) [] (("A").toList)
        ++ gapL ++ mkFileBlock (("b.py").toList) [] (("B").toList))
      = [toRec ((("a.py").toList), ([] : List Char), (("A").toList)),
         toRec ((("b.py").toList), ([] : List Char), (("B").toList))] :=
  c6_nongreedy_two_blocks (("a.py").toList) [] (("A").toList)
    (("b.py").toList) [] (("B").toList)
    (by decide) (by decide) (by decide) (by decide) (by decide) (by decide)
    (by decide)

/-- C7: a record whose processing raises (any of the three `except`
clauses of the loop) contributes nothing to the created list, its failure
message is reported, and the batch continues with the remaining records on
the filesystem as the failed step left it — `write_files` is a total
function of the batch, never propagating the exception. -/
theorem c7_failure_isolated_batch_continues (fs : FS) (base : AbsPath)
    (ow sm : Bool) (fp : List Char) (c : Option (List Char)) (lang : List Char)
    (rest : List (List Char × Option (List Char) × List Char))
    (h : isFailure (recordStep fs base ow sm fp c).2.2 = true) :
    write_files base ow sm fs ((fp, c, lang) :: rest)
      = ((write_files base ow sm (recordStep fs base ow sm fp c).1 rest).1,
         (write_files base ow sm (recordStep fs base ow sm fp c).1 rest).2.1,
         (recordStep fs base ow sm fp c).2.2
           :: (write_files base ow sm (recordStep fs base ow sm fp c).1 rest).2.2) := by
  have hnone : (recordStep fs base ow sm fp c).2.1 = none :=
    recordStep_fail_none
      (show recordStep fs base ow sm fp c
        = ((recordStep fs base ow sm fp c).1,
           (recordStep fs base ow sm fp c).2.1,
           (recordStep fs base ow sm fp c).2.2) from rfl) h
  rw [write_files_cons, hnone]
  rfl

/-- C7 (witness): with writing `b.txt` denied, the two-record batch
`[b.txt, c.txt]` reports the permission failure, continues, and creates
only `c.txt`. -/
theorem c7_witness :
    (write_files demoBase true false fsPermDemo
        [(("b.txt").toList, some (("B").toList), ("t").toList),
         (("c.txt").toList, some (("C").toList), ("t").toList)]).2.1
      = [resolvePath demoBase (("c.txt").toList)]
    ∧ (write_files demoBase true false fsPermDemo
        [(("b.txt").toList, some (("B").toList), ("t").toList),
         (("c.txt").toList, some (("C").toList), ("t").toList)]).2.2
      = [Outcome.failedPermission, Outcome.wrote Action.updated] := by
  rw [c7_failure_isolated_batch_continues fsPermDemo demoBase true false
    (("b.txt").toList) (some (("B").toList)) (("t").toList)
    [(("c.txt").toList, some (("C").toList), ("t").toList)] (by decide)]
  exact ⟨by decide, by decide⟩

/-- C8 (counterexample): the claim says every record's path is non-empty
even when the marker's backquotes enclose only whitespace; on the input
`**File: <bq> <bq>**` with a fenced body the extractor emits a record with
the empty path. -/
theorem c8_counterexample :
    ∃ r ∈ extract_files (("**File: ` `**\n```\nx\n```").toList), r.path = [] := by
  decide

/-- C8 (amended): every record's path derives from a non-empty backquote
span, stripped of surrounding whitespace; it can be empty only when that
span was whitespace-only (such records are produced, and the Writer later
skips them). -/
theorem c8_amended_path_trimmed_nonempty_span (response : List Char)
    (r : FileRec) (h : r ∈ extract_files response) :
    ∃ raw ∈ scan response, raw.1 ≠ [] ∧ r.path = pyStrip raw.1
      ∧ (r.path = [] → ∀ c ∈ raw.1, isPySpace c = true) := by
  obtain ⟨raw, hmem, hr⟩ := dedupLoop_mem h
  subst hr
  refine ⟨raw, hmem, scan_path_ne hmem, rfl, ?_⟩
  intro hnil c hc
  exact pyStrip_eq_nil hnil c hc

/-- C8 (witness): the amended claim at the single-block response for
`a.py`. -/
theorem c8_witness :
    ∃ raw ∈ scan (("**File: `a.py`**\n```\nx\n```").toList), raw.1 ≠ []
      ∧ (FileRec.mk (("a.py").toList) (("x").toList) (("text").toList)).path
          = pyStrip raw.1
      ∧ ((FileRec.mk (("a.py").toList) (("x").toList) (("text").toList)).path = []
          → ∀ c ∈ raw.1, isPySpace c = true) :=
  c8_amended_path_trimmed_nonempty_span (("**File: `a.py`**\n```\nx\n```").toList)
    (FileRec.mk (("a.py").toList) (("x").toList) (("text").toList)) (by decide)

/-- C9: every record's content carries no whitespace at either end — its
first character (if any) and its last character (if any) are both
non-whitespace, i.e. the captured body was stripped of every leading and
trailing space, tab and newline. -/
theorem c9_content_no_edge_whitespace (response : List Char) (r : FileRec)
    (h : r ∈ extract_files response) :
    (∀ c, r.content.head? = some c → isPySpace c = false)
    ∧ (∀ c, r.content.getLast? = some c → isPySpace c = false) := by
  obtain ⟨raw, hmem, hr⟩ := dedupLoop_mem h
  subst hr
  exact ⟨fun c hc => pyStrip_head hc, fun c hc => pyStrip_last hc⟩

/-- C9 (witness): the single-block response for `a.py`. -/
theorem c9_witness :
    (∀ c, (FileRec.mk (("a.py").toList) (("x").toList)
        (("text").toList)).content.head? = some c → isPySpace c = false)
    ∧ (∀ c, (FileRec.mk (("a.py").toList) (("x").toList)
        (("text").toList)).content.getLast? = some c → isPySpace c = false) :=
  c9_content_no_edge_whitespace (("**File: `a.py`**\n```\nx\n```").toList)
    (FileRec.mk (("a.py").toList) (("x").toList) (("text").toList)) (by decide)

/-- C10: deduplication keys on the whitespace-stripped path: two blocks
whose backquoted paths differ only in surrounding whitespace yield the
single record of the first block. -/
theorem c10_dedup_on_stripped_path (p1 l1 b1 p2 l2 b2 : List Char)
    (hp1 : pathOk p1 = true) (hl1 : langOk l1 = true) (hb1 : bodyOk b1 = true)
    (hp2 : pathOk p2 = true) (hl2 : langOk l2 = true) (hb2 : bodyOk b2 = true)
    (heq : pyStrip p1 = pyStrip p2) :
    extract_files (mkFileBlock p1 l1 b1 ++ gapL ++ mkFileBlock p2 l2 b2)
      = [toRec (p1, l1, b1)] :=
  extract_files_two_same p1 l1 b1 p2 l2 b2 hp1 hl1 hb1 hp2 hl2 hb2 heq

/-- C10 (witness): `app.py` followed by the whitespace-padded
`<space>app.py<space>` yields one record, from the first block. -/
theorem c10_witness :
    extract_files (mkFileBlock (("app.py").toList) [] (("A").toList)
        ++ gapL ++ mkFileBlock ((" app.py ").toList) [] (("B").toList))
      = [toRec ((("app.py").toList), ([] : List Char), (("A").toList))] :=
  c10_dedup_on_stripped_path (("app.py").toList) [] (("A").toList)
    ((" app.py ").toList) [] (("B").toList)
    (by decide) (by decide) (by decide) (by decide) (by decide) (by decide)
    (by decide)

end ClauseCode
